import Mathlib

/-!
# xframe: the deferred-evaluation function node `xvariable_function`

A shallow embedding of `include/xframe/xvariable_function.hpp`.

The class template is generic in the coordinate type, the dimension type, the
element type and the selector type of its operands; the embedding is generic in
the same way (`C`, `D`, `V`, `R`, `S`).  The free functions the template calls
but does not define (`xf::broadcast_coordinates`, `xf::broadcast_dimensions`,
the default constructors and `clear()` of the container types) are collected in
a record `Collaborators`; every statement about the node is proved for an
arbitrary record unless it is about what those functions compute.

Mutable cache fields under a `const` interface become explicit state passing:
a query takes the node and returns its answer together with the node after the
query.

`xf::broadcast_dimensions` is declared to return `bool`; whether it can also
leave by a thrown condition is not visible in this header.  The embedding comes
in two forms: the form above, for collaborators that always return, and the form
in `throwing`, where the merge may throw and the members, which have no handler,
pass the condition on to their caller.
-/

set_option autoImplicit false

namespace xf

/-! ## Data model -/

/-- Identity token of a join policy, `join::join_id`; `Join::id()` of the two
policies `join::inner` and `join::outer`. -/
inductive join_id where
  | inner
  | outer
  deriving DecidableEq

/-- Return type of a coordinate broadcast, `xtrivial_broadcast`; the node reads
its field `m_xtensor_trivial` only. -/
structure xtrivial_broadcast where
  m_xtensor_trivial : Bool
  deriving DecidableEq

/-- One entry of the operand tuple `std::tuple<xvariable_closure_t<CT>...>`,
seen through the interface the node uses: the element access
`xt::detail::get_element(e, args...)` and the member `select<Join>(selector)`,
where `none` stands for `std::out_of_range`.  `xvariable_scalar` is the closure
type substituted for `xt::xscalar<CT>`, whose `coordinates()` and
`dimension_mapping()` are the marker `xfull_coordinate`; `xvariable` is any
coordinate-bearing operand (a variable or a nested function node) with its
`coordinates()` and its `dimension_mapping()`. -/
inductive Operand (C D V S : Type) where
  | xvariable_scalar (element : List Nat → V) (select : join_id → S → Option V)
  | xvariable (coordinates : C) (dimension_mapping : D)
      (element : List Nat → V) (select : join_id → S → Option V)

namespace Operand

variable {C D V S : Type}

/-- Type trait `is_xvariable_scalar<T>::value`. -/
def is_xvariable_scalar : Operand C D V S → Bool
  | xvariable_scalar _ _ => true
  | xvariable _ _ _ _ => false

/-- Member `coordinates()`; `none` is the marker type `xfull_coordinate` of a
scalar adapter, which `std::common_type` erases from `coordinate_type`. -/
def coordinates : Operand C D V S → Option C
  | xvariable_scalar _ _ => none
  | xvariable c _ _ _ => some c

/-- Member `dimension_mapping()`; `none` is the marker type `xfull_coordinate`
of a scalar adapter. -/
def dimension_mapping : Operand C D V S → Option D
  | xvariable_scalar _ _ => none
  | xvariable _ d _ _ => some d

/-- Element access `xt::detail::get_element(e, args...)`. -/
def get_element : Operand C D V S → List Nat → V
  | xvariable_scalar el _, args => el args
  | xvariable _ _ el _, args => el args

/-- Member `select<Join>(selector)`; `none` is a thrown `std::out_of_range`. -/
def select : Operand C D V S → join_id → S → Option V
  | xvariable_scalar _ sel, J, s => sel J s
  | xvariable _ _ _ sel, J, s => sel J s

end Operand

/-- The functions and container operations that `xvariable_function.hpp` uses
from `xcoordinate.hpp` and `xdimension.hpp`.
* `coordinate_empty`: the value of `coordinate_type()` and of a coordinate
  mapping after `clear()`;
* `dimension_empty`: the value of `dimension_type()`;
* `broadcast_coordinates J coords cs`: `xf::broadcast_coordinates<Join>(coords,
  cs...)`, returning the updated in/out argument `coords` and the result;
* `broadcast_dimensions dims ds`: `xf::broadcast_dimensions(dims, ds...)`,
  returning the updated in/out argument `dims` and the `bool` result. -/
structure Collaborators (C D : Type) where
  coordinate_empty : C
  dimension_empty : D
  broadcast_coordinates : join_id → C → List (Option C) → C × xtrivial_broadcast
  broadcast_dimensions : D → List (Option D) → D × Bool

/-- Class `xvariable_function<F, R, CT...>`: the operand tuple `m_e`, the functor
`m_f` (applied to the operands' values in declared order) and the four mutable
cache fields. -/
structure xvariable_function (C D V R S : Type) where
  m_e : List (Operand C D V S)
  m_f : List V → R
  m_coordinate : C
  m_dimension_mapping : D
  m_join_id : join_id
  m_coordinate_computed : Bool

/-! ## `detail::first_non_scalar` -/

namespace detail

variable {C D V S : Type}

/-- Template `first_non_scalar_impl<T, I, C>`.  With `C = true` it is the primary
template, whose `get` returns `std::get<I>(t)`; with `C = false` it inherits from
`first_non_scalar_impl<T, I + 1, !is_xvariable_scalar<tuple_element_t<I+1, T>>>`.
`none` is an ill-formed instantiation (`tuple_element_t` past the end). -/
def first_non_scalar_impl (t : List (Operand C D V S)) (I : Nat) (c : Bool) :
    Option (Operand C D V S) :=
  if c then t[I]?
  else
    if h : I + 1 < t.length then
      first_non_scalar_impl t (I + 1) (!(t.get ⟨I + 1, h⟩).is_xvariable_scalar)
    else none
termination_by t.length - I
decreasing_by omega

/-- Template `first_non_scalar<T>`, which starts the search at index 0. -/
def first_non_scalar (t : List (Operand C D V S)) : Option (Operand C D V S) :=
  match t[0]? with
  | none => none
  | some e => first_non_scalar_impl t 0 (!e.is_xvariable_scalar)

/-- Function `get_first_non_scalar(const T& t)`. -/
def get_first_non_scalar (t : List (Operand C D V S)) : Option (Operand C D V S) :=
  first_non_scalar t

end detail

/-! ## Member functions of `xvariable_function` -/

namespace xvariable_function

variable {C D V R S : Type}

/-- Constructor `xvariable_function(Func&& f, CT... e)`: empty cache, join id
`join::inner::id()`, flag `false`. -/
def construct (X : Collaborators C D) (f : List V → R) (e : List (Operand C D V S)) :
    xvariable_function C D V R S :=
  { m_e := e
    m_f := f
    m_coordinate := X.coordinate_empty
    m_dimension_mapping := X.dimension_empty
    m_join_id := join_id.inner
    m_coordinate_computed := false }

/-- Member `broadcast_coordinates_impl<Join>`: forwards the in/out argument and
every operand's `coordinates()` to `xf::broadcast_coordinates<Join>`. -/
def broadcast_coordinates_impl (X : Collaborators C D) (J : join_id)
    (n : xvariable_function C D V R S) (coords : C) : C × xtrivial_broadcast :=
  X.broadcast_coordinates J coords (n.m_e.map Operand.coordinates)

/-- Member `broadcast_coordinates<Join>(coords)`. -/
def broadcast_coordinates (X : Collaborators C D) (J : join_id)
    (n : xvariable_function C D V R S) (coords : C) : C × xtrivial_broadcast :=
  broadcast_coordinates_impl X J n coords

/-- Member `merge_dimension_mapping`: forwards the in/out argument and every
operand's `dimension_mapping()` to `xf::broadcast_dimensions`. -/
def merge_dimension_mapping (X : Collaborators C D)
    (n : xvariable_function C D V R S) (dims : D) : D × Bool :=
  X.broadcast_dimensions dims (n.m_e.map Operand.dimension_mapping)

/-- Member `broadcast_dimensions(dims, trivial_bc)`, returning the updated in/out
argument `dims` and the `bool` result.  `none` is the ill-formed instantiation of
`get_first_non_scalar` on a tuple of scalar adapters only. -/
def broadcast_dimensions (X : Collaborators C D) (n : xvariable_function C D V R S)
    (dims : D) (trivial_bc : Bool) : Option (D × Bool) :=
  if trivial_bc then
    match detail.get_first_non_scalar n.m_e with
    | none => none
    | some e =>
      match e.dimension_mapping with
      | none => none
      | some d => some (d, true)
  else
    some (merge_dimension_mapping X n dims)

/-- Member `compute_coordinates<Join>()`, returning the node after the call. -/
def compute_coordinates (X : Collaborators C D) (J : join_id)
    (n : xvariable_function C D V R S) : Option (xvariable_function C D V R S) :=
  if !n.m_coordinate_computed || n.m_join_id != J then
    let res := broadcast_coordinates X J n X.coordinate_empty
    match broadcast_dimensions X n n.m_dimension_mapping res.2.m_xtensor_trivial with
    | none => none
    | some r =>
      some { n with
        m_coordinate := res.1
        m_dimension_mapping := r.1
        m_coordinate_computed := true
        m_join_id := J }
  else
    some n

/-- Member `coordinates<Join>()`: the answer and the node after the call. -/
def coordinates (X : Collaborators C D) (J : join_id) (n : xvariable_function C D V R S) :
    Option (C × xvariable_function C D V R S) :=
  (compute_coordinates X J n).map fun n' => (n'.m_coordinate, n')

/-- Member `dimension_mapping<Join>()`: the answer and the node after the call. -/
def dimension_mapping (X : Collaborators C D) (J : join_id)
    (n : xvariable_function C D V R S) : Option (D × xvariable_function C D V R S) :=
  (compute_coordinates X J n).map fun n' => (n'.m_dimension_mapping, n')

/-- Conversion `static_cast<size_type>(arg)` of an integral index; `bits` is the
width of the unsigned type `size_type`, which depends on the operand types. -/
def static_cast_size_type (bits : Nat) (a : Int) : Nat :=
  (a % (2 : Int) ^ bits).toNat

/-- Member `access_impl`: `m_f(xt::detail::get_element(std::get<I>(m_e), args...)...)`. -/
def access_impl (n : xvariable_function C D V R S) (args : List Nat) : R :=
  n.m_f (n.m_e.map fun e => e.get_element args)

/-- Member `operator()(args...)`:
`access_impl(..., static_cast<size_type>(args)...)`. -/
def call (bits : Nat) (n : xvariable_function C D V R S) (args : List Int) : R :=
  access_impl n (args.map (static_cast_size_type bits))

/-- Member `select_impl<Join>`: `m_f(std::get<I>(m_e).select<Join>(selector)...)`;
`none` when some operand throws. -/
def select_impl (J : join_id) (n : xvariable_function C D V R S) (selector : S) :
    Option R :=
  (n.m_e.mapM fun (e : Operand C D V S) => e.select J selector).map n.m_f

/-- Member `select<Join>(const selector_map_type<N>&)`. -/
def select (J : join_id) (n : xvariable_function C D V R S) (selector : S) : Option R :=
  select_impl J n selector

/-- Member `select<Join>(selector_map_type<N>&&)`; inside `select_impl` the moved
argument is a named reference and is handed to every operand as an lvalue. -/
def select_rvalue (J : join_id) (n : xvariable_function C D V R S) (selector : S) :
    Option R :=
  select_impl J n selector

/-- States a node passes through: the constructed node, and the node after any
number of metadata queries (each of `coordinates`, `dimension_mapping`, `size`,
`dimension`, `dimension_labels` changes the node through `compute_coordinates`
only; `operator()`, `select` and `data` do not change it). -/
inductive Reachable (X : Collaborators C D) (f : List V → R) (e : List (Operand C D V S)) :
    xvariable_function C D V R S → Prop where
  | constructed : Reachable X f e (construct X f e)
  | query (J : join_id) (n n' : xvariable_function C D V R S) :
      Reachable X f e n → compute_coordinates X J n = some n' → Reachable X f e n'

end xvariable_function

/-- Precondition of the first-non-scalar lookup: some operand is not a scalar
adapter. -/
def has_non_scalar {C D V S : Type} (t : List (Operand C D V S)) : Bool :=
  t.any fun (e : Operand C D V S) => !e.is_xvariable_scalar

/-! ## Members of `xvariable_function` when the dimension merge may throw -/

/-- The collaborators of `Collaborators`, with a free function
`xf::broadcast_dimensions` that either returns as before or throws a condition
of type `E`. -/
structure ThrowingCollaborators (C D E : Type) where
  coordinate_empty : C
  dimension_empty : D
  broadcast_coordinates : join_id → C → List (Option C) → C × xtrivial_broadcast
  broadcast_dimensions : D → List (Option D) → Except E (D × Bool)

namespace throwing

variable {C D E V R S : Type}

/-- Collaborators that always return, seen as collaborators that may throw. -/
def of_returning (X : Collaborators C D) : ThrowingCollaborators C D E :=
  { coordinate_empty := X.coordinate_empty
    dimension_empty := X.dimension_empty
    broadcast_coordinates := X.broadcast_coordinates
    broadcast_dimensions := fun dims ds => Except.ok (X.broadcast_dimensions dims ds) }

/-- Member `merge_dimension_mapping`; `Except.error` is a condition thrown by
`xf::broadcast_dimensions`. -/
def merge_dimension_mapping (X : ThrowingCollaborators C D E)
    (n : xvariable_function C D V R S) (dims : D) : Except E (D × Bool) :=
  X.broadcast_dimensions dims (n.m_e.map Operand.dimension_mapping)

/-- Member `broadcast_dimensions(dims, trivial_bc)`; `Except.error` is a
condition thrown on the way, `Except.ok none` the ill-formed instantiation of
`get_first_non_scalar`. -/
def broadcast_dimensions (X : ThrowingCollaborators C D E)
    (n : xvariable_function C D V R S) (dims : D) (trivial_bc : Bool) :
    Except E (Option (D × Bool)) :=
  if trivial_bc then
    match detail.get_first_non_scalar n.m_e with
    | none => Except.ok none
    | some e =>
      match e.dimension_mapping with
      | none => Except.ok none
      | some d => Except.ok (some (d, true))
  else
    match merge_dimension_mapping X n dims with
    | Except.error c => Except.error c
    | Except.ok r => Except.ok (some r)

/-- Member `compute_coordinates<Join>()`: a condition thrown by
`broadcast_dimensions` leaves the member before the cache is marked as
computed. -/
def compute_coordinates (X : ThrowingCollaborators C D E) (J : join_id)
    (n : xvariable_function C D V R S) :
    Except E (Option (xvariable_function C D V R S)) :=
  if !n.m_coordinate_computed || n.m_join_id != J then
    let res := X.broadcast_coordinates J X.coordinate_empty (n.m_e.map Operand.coordinates)
    match broadcast_dimensions X n n.m_dimension_mapping res.2.m_xtensor_trivial with
    | Except.error c => Except.error c
    | Except.ok none => Except.ok none
    | Except.ok (some r) =>
      Except.ok (some { n with
        m_coordinate := res.1
        m_dimension_mapping := r.1
        m_coordinate_computed := true
        m_join_id := J })
  else
    Except.ok (some n)

/-- Member `coordinates<Join>()`. -/
def coordinates (X : ThrowingCollaborators C D E) (J : join_id)
    (n : xvariable_function C D V R S) :
    Except E (Option (C × xvariable_function C D V R S)) :=
  match compute_coordinates X J n with
  | Except.error c => Except.error c
  | Except.ok r => Except.ok (r.map fun n' => (n'.m_coordinate, n'))

/-- Member `dimension_mapping<Join>()`. -/
def dimension_mapping (X : ThrowingCollaborators C D E) (J : join_id)
    (n : xvariable_function C D V R S) :
    Except E (Option (D × xvariable_function C D V R S)) :=
  match compute_coordinates X J n with
  | Except.error c => Except.error c
  | Except.ok r => Except.ok (r.map fun n' => (n'.m_dimension_mapping, n'))

end throwing

/-! ## The container collaborators, modelled from the specification

`xcoordinate.hpp` and `xdimension.hpp` are not part of the reviewed core.  The
definitions below follow the specification: a coordinate mapping sends a
dimension label to an ordered set of axis labels, a dimension mapping sends a
dimension label to a position. -/

namespace spec_model

/-- Modelled from the spec: the coordinate mapping type (`xcoordinate.hpp`),
"dimension-label → ordered label set". -/
abbrev coordinate_type : Type := List (String × List String)

/-- Modelled from the spec: the dimension mapping type (`xdimension.hpp`),
"dimension-label → position". -/
abbrev dimension_type : Type := List (String × Nat)

/-- Modelled from the spec: the join of two label sets of one dimension
(`xaxis` merge and intersect), "inner = label intersection, outer = label
union". -/
def join_labels : join_id → List String → List String → List String
  | join_id.inner, a, b => a.filter fun l => b.contains l
  | join_id.outer, a, b => a ++ b.filter fun l => !a.contains l

/-- Modelled from the spec: joining one dimension of an operand into the
accumulated coordinate mapping (`xcoordinate::broadcast`): a dimension the
accumulator lacks is added with the operand's labels, a dimension it has gets
the join of the two label sets. -/
def join_axis (J : join_id) (acc : coordinate_type) (entry : String × List String) :
    coordinate_type :=
  match acc.lookup entry.1 with
  | none => acc ++ [entry]
  | some _ =>
    acc.map fun a => if a.1 == entry.1 then (a.1, join_labels J a.2 entry.2) else a

/-- Modelled from the spec: joining one operand's coordinate mapping into the
accumulated one, dimension by dimension. -/
def join_coordinate (J : join_id) (acc c : coordinate_type) : coordinate_type :=
  c.foldl (join_axis J) acc

/-- Modelled from the spec: the trivial-broadcast signal of
`xf::broadcast_coordinates`, "all operand coordinate systems were already
identical". -/
def all_identical : List coordinate_type → Bool
  | [] => true
  | c :: rest => rest.all fun c' => c' == c

/-- Modelled from the spec: the free function `xf::broadcast_coordinates<Join>`
(`xcoordinate.hpp`): the coordinate mappings of the operands, those of scalar
adapters skipped, are joined under `J` into the in/out argument. -/
def broadcast_coordinates (J : join_id) (coords : coordinate_type)
    (cs : List (Option coordinate_type)) : coordinate_type × xtrivial_broadcast :=
  (cs.reduceOption.foldl (join_coordinate J) coords,
   { m_xtensor_trivial := all_identical cs.reduceOption })

/-- Modelled from the spec: pairwise merge of one operand's dimension mapping
into the mapping merged so far: a new label is added with its position, a label
already present must have the same position; `none` is a conflict, two
mappings that "disagree on the position assigned to the same dimension label". -/
def merge_dimension : dimension_type → dimension_type → Option dimension_type
  | acc, [] => some acc
  | acc, entry :: rest =>
    match acc.lookup entry.1 with
    | none => merge_dimension (acc ++ [entry]) rest
    | some p => if p = entry.2 then merge_dimension acc rest else none

/-- Modelled from the spec: the dimension mapping "rebuilt element-wise by
pairwise merge across all operands", in declared order; `none` is a conflict,
for which "no partial/successful result is returned". -/
def pairwise_merge : dimension_type → List dimension_type → Option dimension_type
  | acc, [] => some acc
  | acc, d :: ds =>
    match merge_dimension acc d with
    | none => none
    | some acc' => pairwise_merge acc' ds

/-- Modelled from the spec: the returning part of `xf::broadcast_dimensions`:
on mappings that merge without a conflict it is `broadcast_dimensions_throwing`;
on mappings that conflict, where that function throws, it holds no mapping. -/
def broadcast_dimensions (_dims : dimension_type) (ds : List (Option dimension_type)) :
    dimension_type × Bool :=
  match pairwise_merge [] ds.reduceOption with
  | none => ([], false)
  | some m => (m, true)

/-- Modelled from the spec: the container collaborators, with the empty list as
the empty coordinate mapping and the empty dimension mapping. -/
def collaborators : Collaborators coordinate_type dimension_type :=
  { coordinate_empty := []
    dimension_empty := []
    broadcast_coordinates := broadcast_coordinates
    broadcast_dimensions := broadcast_dimensions }

/-- Specification of the coordinate mapping of a node: the `J`-join of the
coordinate mappings of all non-scalar operands, in declared order, computed from
an empty mapping. -/
def join_of_operands {V S : Type} (J : join_id)
    (e : List (Operand coordinate_type dimension_type V S)) : coordinate_type :=
  ((e.filter fun o => !o.is_xvariable_scalar).filterMap Operand.coordinates).foldl
    (join_coordinate J) []

end spec_model

/-! ## Concrete nodes used to evaluate the embedding -/

namespace examples

open spec_model

/-- Width of `size_type` in the examples. -/
def size_type_bits : Nat := 64

/-- Selector maps of the examples: dimension label → axis label. -/
abbrev selector_map_type : Type := List (String × String)

/-- Operands of the examples: integer elements. -/
abbrev operand_type : Type :=
  Operand coordinate_type dimension_type Int selector_map_type

/-- Nodes of the examples: integer results. -/
abbrev node_type : Type :=
  xvariable_function coordinate_type dimension_type Int Int selector_map_type

/-- Variable `A` of the specification's scenario: dimension `x` with labels
`a, b`, stored at position 0, holding the values 10 and 11. -/
def A : operand_type :=
  Operand.xvariable [("x", ["a", "b"])] [("x", 0)]
    (fun args => 10 + Int.ofNat (args.getLastD 0))
    (fun _ s =>
      if s.lookup "x" = some "a" then some 10
      else if s.lookup "x" = some "b" then some 11
      else none)

/-- Variable `B` of the specification's scenario: dimension `x` with labels
`a, b, c`, stored at position 0, holding the values 20, 21 and 22. -/
def B : operand_type :=
  Operand.xvariable [("x", ["a", "b", "c"])] [("x", 0)]
    (fun args => 20 + Int.ofNat (args.getLastD 0))
    (fun _ s =>
      if s.lookup "x" = some "a" then some 20
      else if s.lookup "x" = some "b" then some 21
      else if s.lookup "x" = some "c" then some 22
      else none)

/-- A two-dimensional variable over `x` (labels `a, b`) and `y` (labels `a, b`)
holding `10 * i + j` at index `(i, j)`. -/
def P : operand_type :=
  Operand.xvariable [("x", ["a", "b"]), ("y", ["a", "b"])] [("x", 0), ("y", 1)]
    (fun args =>
      match args with
      | [i, j] => 10 * Int.ofNat i + Int.ofNat j
      | _ => 0)
    (fun _ s => if s = [("x", "b"), ("y", "a")] then some 10 else none)

/-- A two-dimensional variable over the same coordinates holding `100 + i + j`
at index `(i, j)`. -/
def Q : operand_type :=
  Operand.xvariable [("x", ["a", "b"]), ("y", ["a", "b"])] [("x", 0), ("y", 1)]
    (fun args =>
      match args with
      | [i, j] => 100 + Int.ofNat i + Int.ofNat j
      | _ => 0)
    (fun _ s => if s = [("x", "b"), ("y", "a")] then some 101 else none)

/-- Addition of all operand values. -/
def plus (vs : List Int) : Int := vs.sum

/-- Subtraction of the second operand value from the first. -/
def minus (vs : List Int) : Int :=
  match vs with
  | [u, v] => u - v
  | _ => 0

/-- The node `A + B`. -/
def A_plus_B : node_type := xvariable_function.construct collaborators plus [A, B]

/-- The node `P - Q`. -/
def P_minus_Q : node_type := xvariable_function.construct collaborators minus [P, Q]

/-- The node `3 + 4 + A + B`, whose first two operands are scalar adapters. -/
def scalars_then_A_B : node_type :=
  xvariable_function.construct collaborators plus
    [Operand.xvariable_scalar (fun _ => 3) (fun _ _ => some 3),
     Operand.xvariable_scalar (fun _ => 4) (fun _ _ => some 4), A, B]

end examples

/-! ## The axis view, modelled from its test

`xaxis_view.hpp` and the slice types of the tensor engine are not part of the
reviewed core; `test/test_xaxis_view.cpp` exercises them. -/

namespace axis_view_model

/-- Modelled from the spec: the slice `xt::xstepped_range<size_type>` built by
`make_slice`, selecting `m_size` positions from `m_start` in steps of `m_step`. -/
structure xstepped_range where
  m_start : Nat
  m_size : Nat
  m_step : Nat
  deriving DecidableEq

namespace xstepped_range

/-- Modelled from the spec: constructor `xstepped_range(start_val, stop_val,
step)`; the size is the number of steps below `stop_val`, rounded up. -/
def make (start_val stop_val step : Nat) : xstepped_range :=
  { m_start := start_val
    m_size := (stop_val - start_val + step - 1) / step
    m_step := step }

/-- Modelled from the spec: `operator()(i)`, the `i`-th selected position. -/
def call (s : xstepped_range) (i : Nat) : Nat :=
  s.m_start + i * s.m_step

/-- Modelled from the spec: `contains(i)`, whether position `i` is selected. -/
def contains (s : xstepped_range) (i : Nat) : Bool :=
  decide (s.m_start ≤ i) && decide (i < s.m_start + s.m_size * s.m_step) &&
    ((i - s.m_start) % s.m_step == 0)

end xstepped_range

/-- Modelled from the spec: lookup in the underlying axis (`xaxis::find`): the
position of label `k` among the labels, `none` when the axis lacks it. -/
def position : List String → String → Option Nat
  | [], _ => none
  | l :: ls, k => if l == k then some 0 else (position ls k).map fun p => p + 1

/-- Modelled from the spec: `xaxis_view`, an axis seen through an index slice. -/
structure xaxis_view where
  m_axis : List String
  m_slice : xstepped_range

namespace xaxis_view

/-- Modelled from the spec: `xaxis_view::operator[]`: the position of `k` in the
underlying axis when the slice selects it; `none` is `std::out_of_range`. -/
def lookup (v : xaxis_view) (k : String) : Option Nat :=
  match position v.m_axis k with
  | none => none
  | some p => if v.m_slice.contains p then some p else none

/-- Modelled from the spec: `xaxis_view::contains`. -/
def contains (v : xaxis_view) (k : String) : Bool :=
  match position v.m_axis k with
  | none => false
  | some p => v.m_slice.contains p

/-- Modelled from the spec: `xaxis_view::size`. -/
def size (v : xaxis_view) : Nat :=
  v.m_slice.m_size

end xaxis_view

/-- Modelled from the spec: the axis of the test fixture,
`make_variant_view_saxis()` (`test_fixture_view.hpp`), with the labels the test
lists. -/
def test_axis : List String := ["a", "c", "d", "f", "g", "h", "m", "n"]

/-- Function `make_slice()` of the test: `stepped_range(1, 7, 2)`. -/
def make_slice : xstepped_range := xstepped_range.make 1 7 2

end axis_view_model

end xf

namespace xf

/-! ## The first-non-scalar lookup -/

section lookup

variable {C D V S : Type}

theorem first_non_scalar_impl_eq (t : List (Operand C D V S)) (k I : Nat) (c : Bool)
    (hk : t.length - I = k) :
    detail.first_non_scalar_impl t I c =
      if c then t[I]? else (t.drop (I + 1)).find? fun e => !e.is_xvariable_scalar := by
  induction k generalizing I c with
  | zero =>
    unfold detail.first_non_scalar_impl
    cases c with
    | true => simp
    | false =>
      have h1 : ¬ (I + 1 < t.length) := by omega
      have h2 : t.drop (I + 1) = [] := List.drop_eq_nil_of_le (by omega)
      simp [h1, h2]
  | succ k ih =>
    unfold detail.first_non_scalar_impl
    cases c with
    | true => simp
    | false =>
      by_cases h1 : I + 1 < t.length
      · have hd : t.drop (I + 1) = t[I + 1] :: t.drop (I + 1 + 1) :=
          List.drop_eq_getElem_cons h1
        rw [dif_pos h1, ih (I + 1) _ (by omega), hd]
        simp only [Bool.false_eq_true, if_false, List.find?_cons, List.get_eq_getElem]
        cases hs : (t[I + 1]).is_xvariable_scalar <;> simp [List.getElem?_eq_getElem h1]
      · have h2 : t.drop (I + 1) = [] := List.drop_eq_nil_of_le (by omega)
        simp [h1, h2]

theorem get_first_non_scalar_eq_find (t : List (Operand C D V S)) :
    detail.get_first_non_scalar t = t.find? fun e => !e.is_xvariable_scalar := by
  unfold detail.get_first_non_scalar detail.first_non_scalar
  cases t with
  | nil => simp
  | cons a rest =>
    simp only [List.getElem?_cons_zero]
    rw [first_non_scalar_impl_eq (a :: rest) _ 0 _ rfl]
    cases hs : a.is_xvariable_scalar <;> simp [hs]

theorem find_at_least_index {α : Type} (p : α → Bool) (t : List α) (i : Nat)
    (hi : i < t.length) (hp : p t[i] = true)
    (hb : ∀ j (hj : j < i), p (t[j]) = false) : t.find? p = some t[i] := by
  induction t generalizing i with
  | nil => simp at hi
  | cons a rest ih =>
    cases i with
    | zero =>
      have hp' : p a = true := by simpa using hp
      simp [List.find?_cons, hp']
    | succ i =>
      have h0 : p a = false := by simpa using hb 0 (by omega)
      have hi' : i < rest.length := by simpa using hi
      have := ih i hi' (by simpa using hp) (fun j hj => by simpa using hb (j + 1) (by omega))
      simpa [List.find?_cons, h0] using this

theorem get_first_non_scalar_of_has (t : List (Operand C D V S))
    (h : has_non_scalar t = true) :
    ∃ c d el sel, detail.get_first_non_scalar t = some (Operand.xvariable c d el sel) := by
  rw [get_first_non_scalar_eq_find]
  induction t with
  | nil => simp [has_non_scalar] at h
  | cons a rest ih =>
    cases a with
    | xvariable_scalar el sel =>
      have h' : has_non_scalar rest = true := by
        simpa [has_non_scalar, Operand.is_xvariable_scalar] using h
      simpa [List.find?_cons, Operand.is_xvariable_scalar] using ih h'
    | xvariable c d el sel =>
      exact ⟨c, d, el, sel, by simp [List.find?_cons, Operand.is_xvariable_scalar]⟩

end lookup

end xf

namespace xf

namespace xvariable_function

/-! ## The metadata cache -/

section cache

variable {C D V R S : Type}

theorem broadcast_dimensions_total (X : Collaborators C D)
    (n : xvariable_function C D V R S) (dims : D) (b : Bool)
    (h : has_non_scalar n.m_e = true) :
    ∃ r, broadcast_dimensions X n dims b = some r := by
  cases b with
  | false => exact ⟨merge_dimension_mapping X n dims, by simp [broadcast_dimensions]⟩
  | true =>
    obtain ⟨c, d, el, sel, hg⟩ := get_first_non_scalar_of_has n.m_e h
    exact ⟨(d, true), by simp [broadcast_dimensions, hg, Operand.dimension_mapping]⟩

theorem compute_coordinates_cached (X : Collaborators C D) (J : join_id)
    (n : xvariable_function C D V R S)
    (hc : n.m_coordinate_computed = true) (hj : n.m_join_id = J) :
    compute_coordinates X J n = some n := by
  simp [compute_coordinates, hc, hj]

theorem compute_coordinates_recompute (X : Collaborators C D) (J : join_id)
    (n : xvariable_function C D V R S) (h : has_non_scalar n.m_e = true)
    (hneed : n.m_coordinate_computed = false ∨ n.m_join_id ≠ J) :
    ∃ r, broadcast_dimensions X n n.m_dimension_mapping
          (X.broadcast_coordinates J X.coordinate_empty
            (n.m_e.map Operand.coordinates)).2.m_xtensor_trivial = some r ∧
      compute_coordinates X J n = some
        { n with
          m_coordinate :=
            (X.broadcast_coordinates J X.coordinate_empty (n.m_e.map Operand.coordinates)).1
          m_dimension_mapping := r.1
          m_coordinate_computed := true
          m_join_id := J } := by
  obtain ⟨r, hr⟩ := broadcast_dimensions_total X n n.m_dimension_mapping
    (X.broadcast_coordinates J X.coordinate_empty
      (n.m_e.map Operand.coordinates)).2.m_xtensor_trivial h
  refine ⟨r, hr, ?_⟩
  have hcond : (!n.m_coordinate_computed || n.m_join_id != J) = true := by
    rcases hneed with h1 | h1
    · simp [h1]
    · simp [h1]
  simp only [compute_coordinates, hcond, if_true, broadcast_coordinates,
    broadcast_coordinates_impl, hr]

/-- Every state a node passes through keeps the operands and the functor it was
built from, and a cache marked as computed holds the broadcast, from the empty
mapping, of the operands' coordinates under the stored join id. -/
theorem reachable_invariant (X : Collaborators C D) (f : List V → R)
    (e : List (Operand C D V S)) (n : xvariable_function C D V R S)
    (hr : Reachable X f e n) :
    n.m_e = e ∧ n.m_f = f ∧
      (n.m_coordinate_computed = true →
        n.m_coordinate =
          (X.broadcast_coordinates n.m_join_id X.coordinate_empty
            (e.map Operand.coordinates)).1) := by
  induction hr with
  | constructed => simp [construct]
  | query J n n' _ hq ih =>
    obtain ⟨he, hf, hc⟩ := ih
    by_cases hcond : (!n.m_coordinate_computed || n.m_join_id != J) = true
    · simp only [compute_coordinates, hcond, if_true] at hq
      split at hq
      · exact absurd hq (by simp)
      · cases hq
        simp [he, hf, broadcast_coordinates, broadcast_coordinates_impl]
    · simp only [compute_coordinates, hcond] at hq
      cases hq
      exact ⟨he, hf, hc⟩

/-- On a reachable node with a non-scalar operand, `coordinates<J>()` returns the
broadcast of the operands' coordinates under `J` from the empty mapping, and
leaves a reachable node in state computed(J). -/
theorem coordinates_reachable (X : Collaborators C D) (f : List V → R)
    (e : List (Operand C D V S)) (n : xvariable_function C D V R S) (J : join_id)
    (hr : Reachable X f e n) (h : has_non_scalar e = true) :
    ∃ n', coordinates X J n =
        some ((X.broadcast_coordinates J X.coordinate_empty (e.map Operand.coordinates)).1, n') ∧
      Reachable X f e n' ∧ n'.m_coordinate_computed = true ∧ n'.m_join_id = J := by
  obtain ⟨he, hf, hc⟩ := reachable_invariant X f e n hr
  by_cases hneed : n.m_coordinate_computed = false ∨ n.m_join_id ≠ J
  · obtain ⟨r, _, hcomp⟩ := compute_coordinates_recompute X J n (he ▸ h) hneed
    refine ⟨_, ?_, Reachable.query J n _ hr hcomp, rfl, rfl⟩
    simp [coordinates, hcomp, he]
  · have h1 : n.m_coordinate_computed = true := by
      cases hb : n.m_coordinate_computed
      · exact absurd (Or.inl hb) hneed
      · rfl
    have h2 : n.m_join_id = J := by
      by_contra hne
      exact hneed (Or.inr hne)
    have hcomp := compute_coordinates_cached X J n h1 h2
    refine ⟨n, ?_, hr, h1, h2⟩
    simp [coordinates, hcomp, hc h1, h2]

end cache

end xvariable_function

end xf

namespace xf

namespace xvariable_function

/-! ## Element access and labelled access -/

section access

variable {C D V R S : Type}

theorem static_cast_size_type_ofNat (bits a : Nat) (h : a < 2 ^ bits) :
    static_cast_size_type bits (Int.ofNat a) = a := by
  unfold static_cast_size_type
  have h0 : (0 : Int) ≤ Int.ofNat a := Int.ofNat_nonneg a
  have h1 : Int.ofNat a < (2 : Int) ^ bits := by
    have : ((a : Nat) : Int) < ((2 ^ bits : Nat) : Int) := Int.ofNat_lt.mpr h
    simpa using this
  rw [Int.emod_eq_of_lt h0 h1]
  simp

theorem map_static_cast_size_type (bits : Nat) (args : List Nat)
    (h : ∀ a ∈ args, a < 2 ^ bits) :
    (args.map Int.ofNat).map (static_cast_size_type bits) = args := by
  induction args with
  | nil => rfl
  | cons a rest ih =>
    have ha := h a (by simp)
    have hrest := ih (fun b hb => h b (by simp [hb]))
    simp only [List.map_cons, static_cast_size_type_ofNat bits a ha, hrest]

theorem mapM_option_of_forall {α β : Type} (f : α → Option β) (g : α → β) (l : List α)
    (h : ∀ a ∈ l, f a = some (g a)) : l.mapM f = some (l.map g) := by
  induction l with
  | nil => rfl
  | cons a rest ih =>
    have ha := h a (by simp)
    have hrest := ih (fun b hb => h b (by simp [hb]))
    rw [List.mapM_cons, ha, hrest]
    rfl

end access

end xvariable_function

/-! ## Claims about the node, for arbitrary collaborators -/

section claims

open xvariable_function

variable {C D V R S : Type}

/-- C1: cache coherence of coordinates.  On a node whose operands are unchanged
since construction, for join policies `J1 ≠ J2`, the calls `coordinates<J1>()`,
`coordinates<J2>()`, `coordinates<J1>()` all return, and the third call, which
finds the cache computed under the other policy, returns the coordinate mapping
of the first call. -/
theorem coordinates_cache_coherence (X : Collaborators C D) (f : List V → R)
    (e : List (Operand C D V S)) (n : xvariable_function C D V R S) (J1 J2 : join_id)
    (hr : Reachable X f e n) (hJ : J1 ≠ J2) (h : has_non_scalar e = true) :
    ∃ c1 n1 c2 n2 c3 n3,
      coordinates X J1 n = some (c1, n1) ∧
      coordinates X J2 n1 = some (c2, n2) ∧
      coordinates X J1 n2 = some (c3, n3) ∧
      n2.m_join_id ≠ J1 ∧ c3 = c1 := by
  obtain ⟨n1, h1, hr1, _, _⟩ := coordinates_reachable X f e n J1 hr h
  obtain ⟨n2, h2, hr2, _, hj2⟩ := coordinates_reachable X f e n1 J2 hr1 h
  obtain ⟨n3, h3, _, _, _⟩ := coordinates_reachable X f e n2 J1 hr2 h
  exact ⟨_, n1, _, n2, _, n3, h1, h2, h3, by rw [hj2]; exact fun hc => hJ hc.symm, rfl⟩

/-- C5: cache state machine and idempotence.  A query under `J` on any node state
with a non-scalar operand returns; when the node is computed under `J` it leaves
the node unchanged; when the node is uncomputed or its stored join id differs
from `J` it stores the broadcast of the operands' coordinates from the empty
mapping and the dimension mapping given by `broadcast_dimensions`; in both cases
the node ends computed under `J`, and a repeated query under `J` leaves that
node unchanged and returns the same coordinate and dimension mapping. -/
theorem cache_state_machine (X : Collaborators C D) (J : join_id)
    (n : xvariable_function C D V R S) (h : has_non_scalar n.m_e = true) :
    ∃ n', compute_coordinates X J n = some n' ∧
      n'.m_coordinate_computed = true ∧ n'.m_join_id = J ∧
      (n.m_coordinate_computed = true ∧ n.m_join_id = J → n' = n) ∧
      (n.m_coordinate_computed = false ∨ n.m_join_id ≠ J →
        n'.m_coordinate =
          (X.broadcast_coordinates J X.coordinate_empty (n.m_e.map Operand.coordinates)).1 ∧
        ∃ b, broadcast_dimensions X n n.m_dimension_mapping
          (X.broadcast_coordinates J X.coordinate_empty
            (n.m_e.map Operand.coordinates)).2.m_xtensor_trivial =
          some (n'.m_dimension_mapping, b)) ∧
      compute_coordinates X J n' = some n' ∧
      coordinates X J n = some (n'.m_coordinate, n') ∧
      coordinates X J n' = some (n'.m_coordinate, n') ∧
      dimension_mapping X J n = some (n'.m_dimension_mapping, n') ∧
      dimension_mapping X J n' = some (n'.m_dimension_mapping, n') := by
  by_cases hneed : n.m_coordinate_computed = false ∨ n.m_join_id ≠ J
  · obtain ⟨r, hbd, hcomp⟩ := compute_coordinates_recompute X J n h hneed
    have hagain := compute_coordinates_cached X J
      { n with
        m_coordinate :=
          (X.broadcast_coordinates J X.coordinate_empty (n.m_e.map Operand.coordinates)).1
        m_dimension_mapping := r.1
        m_coordinate_computed := true
        m_join_id := J } rfl rfl
    refine ⟨_, hcomp, rfl, rfl, ?_, ?_, hagain, ?_, ?_, ?_, ?_⟩
    · rintro ⟨hc, hj⟩
      rcases hneed with h1 | h1
      · rw [hc] at h1; exact absurd h1 (by simp)
      · exact absurd hj h1
    · intro _
      exact ⟨rfl, r.2, by simpa using hbd⟩
    · simp [coordinates, hcomp]
    · simp [coordinates, hagain]
    · simp [dimension_mapping, hcomp]
    · simp [dimension_mapping, hagain]
  · have h1 : n.m_coordinate_computed = true := by
      cases hb : n.m_coordinate_computed
      · exact absurd (Or.inl hb) hneed
      · rfl
    have h2 : n.m_join_id = J := by
      by_contra hne
      exact hneed (Or.inr hne)
    have hcomp := compute_coordinates_cached X J n h1 h2
    refine ⟨n, hcomp, h1, h2, fun _ => rfl, fun hc => absurd hc hneed, hcomp, ?_, ?_, ?_, ?_⟩ <;>
      simp [coordinates, dimension_mapping, hcomp]

/-- C6: element-access equivalence.  For indices that fit `size_type`, `node(args...)`
is the operation applied to each operand's element at `args`, operands in
declared order; for two operands `a, b` it is `op(a(args...), b(args...))`. -/
theorem element_access_equivalence (bits : Nat) (n : xvariable_function C D V R S)
    (args : List Nat) (hvalid : ∀ a ∈ args, a < 2 ^ bits) :
    n.call bits (args.map Int.ofNat) = n.m_f (n.m_e.map fun e => e.get_element args) ∧
    ∀ a b, n.m_e = [a, b] →
      n.call bits (args.map Int.ofNat) =
        n.m_f [a.get_element args, b.get_element args] := by
  have hmain : n.call bits (args.map Int.ofNat) =
      n.m_f (n.m_e.map fun e => e.get_element args) := by
    simp only [call, access_impl, map_static_cast_size_type bits args hvalid]
  refine ⟨hmain, ?_⟩
  intro a b hab
  rw [hmain, hab]
  rfl

/-- C7: select / operator() equivalence.  When the selector resolves on every
operand to that operand's element at `args`, both overloads of `select<J>`
return `node(args...)`. -/
theorem select_call_equivalence (bits : Nat) (n : xvariable_function C D V R S)
    (J : join_id) (selector : S) (args : List Nat)
    (hvalid : ∀ a ∈ args, a < 2 ^ bits)
    (hres : ∀ e ∈ n.m_e, e.select J selector = some (e.get_element args)) :
    n.select J selector = some (n.call bits (args.map Int.ofNat)) ∧
    n.select_rvalue J selector = some (n.call bits (args.map Int.ofNat)) := by
  have hm := mapM_option_of_forall (fun e : Operand C D V S => e.select J selector)
    (fun e => e.get_element args) n.m_e hres
  have hc : n.call bits (args.map Int.ofNat) =
      n.m_f (n.m_e.map fun e => e.get_element args) := by
    simp only [call, access_impl, map_static_cast_size_type bits args hvalid]
  constructor
  · rw [select, select_impl, hm, hc]
    rfl
  · rw [select_rvalue, select_impl, hm, hc]
    rfl

/-- C8: first non-scalar lookup.  When operand `i` is not a scalar adapter and
every operand before it is, `get_first_non_scalar` returns operand `i`, and the
trivial path of `broadcast_dimensions` sets `dims` to that operand's dimension
mapping and returns `true`. -/
theorem first_non_scalar_lookup (X : Collaborators C D) (n : xvariable_function C D V R S)
    (dims : D) (i : Nat) (hi : i < n.m_e.length)
    (hns : (n.m_e[i]).is_xvariable_scalar = false)
    (hb : ∀ j (hj : j < i), (n.m_e[j]).is_xvariable_scalar = true) :
    detail.get_first_non_scalar n.m_e = some n.m_e[i] ∧
    ∃ d, (n.m_e[i]).dimension_mapping = some d ∧
      broadcast_dimensions X n dims true = some (d, true) := by
  have hfind : detail.get_first_non_scalar n.m_e = some n.m_e[i] := by
    rw [get_first_non_scalar_eq_find]
    exact find_at_least_index _ n.m_e i hi (by simp [hns])
      (fun j hj => by simp [hb j hj])
  refine ⟨hfind, ?_⟩
  cases hop : n.m_e[i] with
  | xvariable_scalar el sel => rw [hop] at hns; simp [Operand.is_xvariable_scalar] at hns
  | xvariable c d el sel =>
    refine ⟨d, rfl, ?_⟩
    rw [hop] at hfind
    simp [broadcast_dimensions, hfind, Operand.dimension_mapping]

end claims

end xf

namespace xf

section witnesses

open xvariable_function spec_model examples

theorem coordinates_cache_coherence_witness :
    join_id.inner ≠ join_id.outer ∧ has_non_scalar [A, B] = true ∧
    ∃ c1 n1 c2 n2 c3 n3,
      coordinates collaborators join_id.inner A_plus_B = some (c1, n1) ∧
      coordinates collaborators join_id.outer n1 = some (c2, n2) ∧
      coordinates collaborators join_id.inner n2 = some (c3, n3) ∧
      n2.m_join_id ≠ join_id.inner ∧ c3 = c1 :=
  ⟨by decide, by decide,
    coordinates_cache_coherence collaborators plus [A, B] A_plus_B join_id.inner
      join_id.outer Reachable.constructed (by decide) (by decide)⟩

theorem cache_state_machine_witness :
    A_plus_B.m_join_id = join_id.inner ∧ A_plus_B.m_coordinate_computed = false ∧
    ∃ n', compute_coordinates collaborators join_id.inner A_plus_B = some n' ∧
      n'.m_coordinate_computed = true ∧ n'.m_join_id = join_id.inner ∧
      n'.m_coordinate = [("x", ["a", "b"])] ∧
      compute_coordinates collaborators join_id.inner n' = some n' := by
  obtain ⟨n', hc, h1, h2, _, hre, hag, _⟩ :=
    cache_state_machine collaborators join_id.inner A_plus_B (by decide)
  exact ⟨rfl, rfl, n', hc, h1, h2, (hre (Or.inl rfl)).1, hag⟩

theorem element_access_equivalence_witness :
    (∀ a ∈ [1, 0], a < 2 ^ size_type_bits) ∧
    P_minus_Q.call size_type_bits [1, 0] =
      minus [P.get_element [1, 0], Q.get_element [1, 0]] ∧
    minus [P.get_element [1, 0], Q.get_element [1, 0]] = -91 :=
  ⟨by decide,
    (element_access_equivalence size_type_bits P_minus_Q [1, 0] (by decide)).2 P Q rfl,
    by decide⟩

theorem select_call_equivalence_witness :
    P_minus_Q.select join_id.inner [("x", "b"), ("y", "a")] =
      some (P_minus_Q.call size_type_bits [1, 0]) ∧
    P_minus_Q.select_rvalue join_id.inner [("x", "b"), ("y", "a")] =
      some (P_minus_Q.call size_type_bits [1, 0]) :=
  select_call_equivalence size_type_bits P_minus_Q join_id.inner
    [("x", "b"), ("y", "a")] [1, 0]
    (by decide)
    (by
      intro e he
      have he' : e = P ∨ e = Q := by simpa [P_minus_Q, construct] using he
      rcases he' with rfl | rfl <;> rfl)

theorem first_non_scalar_lookup_witness :
    detail.get_first_non_scalar scalars_then_A_B.m_e = some A ∧
    broadcast_dimensions collaborators scalars_then_A_B [] true = some ([("x", 0)], true) := by
  obtain ⟨h1, d, hd, h2⟩ := first_non_scalar_lookup collaborators scalars_then_A_B [] 2
    (by decide) rfl (by
      intro j hj
      match j, hj with
      | 0, _ => rfl
      | 1, _ => rfl)
  have hd' : some [("x", 0)] = some d := hd
  cases hd'
  exact ⟨h1, h2⟩

end witnesses

end xf

namespace xf

namespace spec_model

/-! ## Properties of the modelled dimension merge -/

theorem lookup_eq_none_of_not_mem (d : dimension_type) (l : String)
    (h : l ∉ d.map Prod.fst) : d.lookup l = none := by
  induction d with
  | nil => rfl
  | cons a rest ih =>
    obtain ⟨k, v⟩ := a
    have h1 : l ≠ k := fun hc => h (by simp [hc])
    have h2 : l ∉ rest.map Prod.fst := fun hc => h (by simp [List.mem_map] at hc ⊢; right; exact hc)
    have hk' : (l == k) = false := by simpa using h1
    simp only [List.lookup, hk', ih h2]

theorem lookup_of_mem_of_nodup (d : dimension_type) (entry : String × Nat) (h : entry ∈ d)
    (hn : (d.map Prod.fst).Nodup) : d.lookup entry.1 = some entry.2 := by
  induction d with
  | nil => simp at h
  | cons a rest ih =>
    obtain ⟨k, v⟩ := a
    simp only [List.map_cons, List.nodup_cons] at hn
    rcases List.mem_cons.mp h with h1 | h1
    · rw [h1]; simp [List.lookup]
    · have hne : entry.1 ≠ k := by
        intro hc
        exact hn.1 (hc ▸ List.mem_map_of_mem Prod.fst h1)
      have hk' : (entry.1 == k) = false := by simpa using hne
      simp only [List.lookup, hk', ih h1 hn.2]

/-- Merging a mapping whose labels are new and distinct appends it. -/
theorem merge_dimension_append (pre d : dimension_type)
    (hn : ((pre ++ d).map Prod.fst).Nodup) :
    merge_dimension pre d = some (pre ++ d) := by
  induction d generalizing pre with
  | nil => simp [merge_dimension]
  | cons x rest ih =>
    have hx : x.1 ∉ pre.map Prod.fst := by
      intro hc
      rw [List.map_append, List.nodup_append] at hn
      exact hn.2.2 hc (by simp)
    have hstep : merge_dimension pre (x :: rest) = merge_dimension (pre ++ [x]) rest := by
      simp only [merge_dimension, lookup_eq_none_of_not_mem pre x.1 hx]
    rw [hstep, ih (pre ++ [x]) (by simpa using hn)]
    simp

/-- Merging a mapping whose entries the merged mapping already holds changes
nothing. -/
theorem merge_dimension_same (acc d : dimension_type)
    (h : ∀ entry ∈ d, acc.lookup entry.1 = some entry.2) :
    merge_dimension acc d = some acc := by
  induction d with
  | nil => rfl
  | cons x rest ih =>
    have hx := h x (by simp)
    simp only [merge_dimension, hx, if_true]
    exact ih (fun entry he => h entry (by simp [he]))

theorem pairwise_merge_same (Dm : dimension_type) (ds : List dimension_type)
    (hall : ∀ d ∈ ds, d = Dm) (hn : (Dm.map Prod.fst).Nodup) :
    pairwise_merge Dm ds = some Dm := by
  induction ds with
  | nil => rfl
  | cons d rest ih =>
    have hd : d = Dm := hall d (by simp)
    have hstep : merge_dimension Dm d = some Dm := by
      rw [hd]
      exact merge_dimension_same Dm Dm (fun entry he => lookup_of_mem_of_nodup Dm entry he hn)
    simp only [pairwise_merge, hstep]
    exact ih (fun d' hd' => hall d' (by simp [hd']))

/-- The pairwise merge of copies of one mapping is that mapping. -/
theorem pairwise_merge_identical (Dm : dimension_type) (ds : List dimension_type)
    (hne : ds ≠ []) (hall : ∀ d ∈ ds, d = Dm) (hn : (Dm.map Prod.fst).Nodup) :
    pairwise_merge [] ds = some Dm := by
  cases ds with
  | nil => exact absurd rfl hne
  | cons d rest =>
    have hd : d = Dm := hall d (by simp)
    have hstep : merge_dimension [] d = some Dm := by
      rw [hd]
      have := merge_dimension_append [] Dm (by simpa using hn)
      simpa using this
    simp only [pairwise_merge, hstep]
    exact pairwise_merge_same Dm rest (fun d' hd' => hall d' (by simp [hd'])) hn

end spec_model

end xf

namespace xf

/-! ## Recomputation of the dimension mapping -/

section recomputation

open xvariable_function

variable {C D V R S : Type}

theorem broadcast_dimensions_congr (X : Collaborators C D)
    (n m : xvariable_function C D V R S) (dims : D) (b : Bool) (h : n.m_e = m.m_e) :
    xvariable_function.broadcast_dimensions X n dims b =
      xvariable_function.broadcast_dimensions X m dims b := by
  simp [xvariable_function.broadcast_dimensions, merge_dimension_mapping, h]

theorem broadcast_dimensions_trivial_irrel (X : Collaborators C D)
    (n : xvariable_function C D V R S) (d1 d2 : D) :
    xvariable_function.broadcast_dimensions X n d1 true =
      xvariable_function.broadcast_dimensions X n d2 true := by
  simp [xvariable_function.broadcast_dimensions]

/-- With a merge that rebuilds its in/out argument, what member
`broadcast_dimensions` stores depends on the operands and the path only. -/
theorem broadcast_dimensions_rebuilt (X : Collaborators C D)
    (n m : xvariable_function C D V R S) (d d' : D) (b : Bool) (r r' : D × Bool)
    (he : m.m_e = n.m_e)
    (hreb : ∀ d d', (X.broadcast_dimensions d (n.m_e.map Operand.dimension_mapping)).1 =
      (X.broadcast_dimensions d' (n.m_e.map Operand.dimension_mapping)).1)
    (hr : xvariable_function.broadcast_dimensions X n d b = some r)
    (hr' : xvariable_function.broadcast_dimensions X m d' b = some r') :
    r'.1 = r.1 := by
  rw [broadcast_dimensions_congr X m n d' b he] at hr'
  cases b with
  | true =>
    rw [broadcast_dimensions_trivial_irrel X n d' d, hr] at hr'
    cases hr'
    rfl
  | false =>
    simp only [xvariable_function.broadcast_dimensions, merge_dimension_mapping,
      Bool.false_eq_true, if_false, Option.some.injEq] at hr hr'
    rw [← hr, ← hr']
    exact hreb d' d

end recomputation

/-! ## The node over the modelled collaborators -/

section modelled

open xvariable_function spec_model

variable {V R S : Type}

/-- The modelled merge rebuilds its in/out argument. -/
theorem broadcast_dimensions_rebuilds (d d' : dimension_type)
    (ds : List (Option dimension_type)) :
    spec_model.broadcast_dimensions d ds = spec_model.broadcast_dimensions d' ds :=
  rfl

/-- On a node whose operands are unchanged since construction, a cache marked
as computed holds the dimension mapping a fresh node computes. -/
theorem dimension_cache_invariant (f : List V → R)
    (e : List (Operand coordinate_type dimension_type V S))
    (n : xvariable_function coordinate_type dimension_type V R S)
    (hr : Reachable collaborators f e n) (h : has_non_scalar e = true) :
    ∃ r, xvariable_function.broadcast_dimensions collaborators
          (construct collaborators f e) []
          (all_identical (e.map Operand.coordinates).reduceOption) = some r ∧
      (n.m_coordinate_computed = true → n.m_dimension_mapping = r.1) := by
  obtain ⟨r, hr0⟩ := broadcast_dimensions_total collaborators
    (construct collaborators f e) ([] : dimension_type)
    (all_identical (e.map Operand.coordinates).reduceOption) h
  refine ⟨r, hr0, ?_⟩
  induction hr with
  | constructed => exact fun hc => by simp [construct] at hc
  | query J n n' hrn hq ih =>
    obtain ⟨he, _, _⟩ := reachable_invariant collaborators f e n hrn
    by_cases hneed : n.m_coordinate_computed = false ∨ n.m_join_id ≠ J
    · obtain ⟨r', hbd, hcomp⟩ := compute_coordinates_recompute collaborators J n
        (he ▸ h) hneed
      rw [hcomp] at hq
      cases hq
      have hflag : (collaborators.broadcast_coordinates J collaborators.coordinate_empty
          (n.m_e.map Operand.coordinates)).2.m_xtensor_trivial =
          all_identical (e.map Operand.coordinates).reduceOption := by
        rw [he]; rfl
      rw [hflag] at hbd
      have hsame : r'.1 = r.1 :=
        broadcast_dimensions_rebuilt collaborators (construct collaborators f e) n
          [] n.m_dimension_mapping _ r r' (by simp [he, construct])
          (fun _ _ => rfl) hr0 hbd
      exact fun _ => hsame
    · have h1 : n.m_coordinate_computed = true := by
        cases hb : n.m_coordinate_computed
        · exact absurd (Or.inl hb) hneed
        · rfl
      have h2 : n.m_join_id = J := by
        by_contra hne
        exact hneed (Or.inr hne)
      rw [compute_coordinates_cached collaborators J n h1 h2] at hq
      cases hq
      exact ih

/-- On a node whose operands are unchanged since construction,
`dimension_mapping<J>()` returns the mapping a fresh node computes. -/
theorem dimension_mapping_reachable (f : List V → R)
    (e : List (Operand coordinate_type dimension_type V S))
    (n : xvariable_function coordinate_type dimension_type V R S) (J : join_id)
    (hr : Reachable collaborators f e n) (h : has_non_scalar e = true) :
    ∃ r n', xvariable_function.broadcast_dimensions collaborators
          (construct collaborators f e) []
          (all_identical (e.map Operand.coordinates).reduceOption) = some r ∧
      dimension_mapping collaborators J n = some (r.1, n') ∧
      Reachable collaborators f e n' ∧ n'.m_join_id = J := by
  obtain ⟨n1, hc, hr1, hcomp1, hj1⟩ := coordinates_reachable collaborators f e n J hr h
  obtain ⟨r, hr0, hinv⟩ := dimension_cache_invariant f e n1 hr1 h
  refine ⟨r, n1, hr0, ?_, hr1, hj1⟩
  cases hcc : compute_coordinates collaborators J n with
  | none => simp [coordinates, hcc] at hc
  | some m =>
    have hm : m = n1 := by
      simp only [coordinates, hcc, Option.map_some', Option.some.injEq, Prod.mk.injEq] at hc
      exact hc.2
    simp [dimension_mapping, hcc, hm, hinv hcomp1]

theorem reduceOption_coordinates (e : List (Operand coordinate_type dimension_type V S)) :
    (e.map Operand.coordinates).reduceOption =
      (e.filter fun o => !o.is_xvariable_scalar).filterMap Operand.coordinates := by
  induction e with
  | nil => rfl
  | cons a rest ih =>
    cases a with
    | xvariable_scalar el sel =>
      simp [Operand.coordinates, Operand.is_xvariable_scalar,
        List.reduceOption_cons_of_none, ih]
    | xvariable c d el sel =>
      simp [Operand.coordinates, Operand.is_xvariable_scalar,
        List.reduceOption_cons_of_some, ih]

end modelled

/-! ## A merge that throws -/

section thrown

variable {C D E V R S : Type}

/-- With collaborators that always return, the two forms of
`compute_coordinates` agree. -/
theorem compute_coordinates_of_returning (X : Collaborators C D) (J : join_id)
    (n : xvariable_function C D V R S) :
    throwing.compute_coordinates (throwing.of_returning X : ThrowingCollaborators C D E) J n =
      Except.ok (xvariable_function.compute_coordinates X J n) := by
  unfold throwing.compute_coordinates xvariable_function.compute_coordinates
  by_cases hcond : (!n.m_coordinate_computed || n.m_join_id != J) = true
  · simp only [hcond, if_true]
    cases hb : (X.broadcast_coordinates J X.coordinate_empty
        (n.m_e.map Operand.coordinates)).2.m_xtensor_trivial with
    | true =>
      simp only [throwing.of_returning, xvariable_function.broadcast_coordinates,
        xvariable_function.broadcast_coordinates_impl, hb, throwing.broadcast_dimensions,
        xvariable_function.broadcast_dimensions, if_true]
      cases detail.get_first_non_scalar n.m_e with
      | none => rfl
      | some o =>
        cases hd : o.dimension_mapping with
        | none => simp only [hd]
        | some d => simp only [hd]
    | false =>
      simp only [throwing.of_returning, xvariable_function.broadcast_coordinates,
        xvariable_function.broadcast_coordinates_impl, hb, throwing.broadcast_dimensions,
        xvariable_function.broadcast_dimensions, throwing.merge_dimension_mapping,
        xvariable_function.merge_dimension_mapping, Bool.false_eq_true, if_false]
  · have hc : (!n.m_coordinate_computed || n.m_join_id != J) = false := by simpa using hcond
    simp only [hc, Bool.false_eq_true, if_false]

end thrown

end xf

namespace xf

section modelled_properties

open xvariable_function spec_model examples

variable {V R S : Type}

/-- C4: trivial-merge correctness.  On a node whose operands are unchanged since
construction and whose non-scalar operands all have the dimension mapping `Dm`
(one position per label), `dimension_mapping<J>()` returns `Dm`, whether the
coordinate broadcast selects the trivial or the non-trivial path. -/
theorem shared_dimension_mapping (f : List V → R)
    (e : List (Operand coordinate_type dimension_type V S))
    (n : xvariable_function coordinate_type dimension_type V R S) (J : join_id)
    (Dm : dimension_type)
    (hr : Reachable collaborators f e n) (h : has_non_scalar e = true)
    (hD : ∀ o ∈ e, o.is_xvariable_scalar = false → o.dimension_mapping = some Dm)
    (hn : (Dm.map Prod.fst).Nodup) :
    ∃ n', dimension_mapping collaborators J n = some (Dm, n') := by
  obtain ⟨r, n', hr0, h1, _, _⟩ := dimension_mapping_reachable f e n J hr h
  refine ⟨n', ?_⟩
  have hr1 : r.1 = Dm := by
    cases hT : all_identical (e.map Operand.coordinates).reduceOption with
    | true =>
      rw [hT] at hr0
      obtain ⟨c, d, el, sel, hg⟩ := get_first_non_scalar_of_has e h
      have hmem : Operand.xvariable c d el sel ∈ e := by
        rw [get_first_non_scalar_eq_find] at hg
        exact List.mem_of_find?_eq_some hg
      have hd := hD _ hmem rfl
      simp only [Operand.dimension_mapping, Option.some.injEq] at hd
      simp only [xvariable_function.broadcast_dimensions, construct, hg, if_true,
        Operand.dimension_mapping, Option.some.injEq] at hr0
      rw [← hr0, hd]
    | false =>
      rw [hT] at hr0
      simp only [xvariable_function.broadcast_dimensions, merge_dimension_mapping,
        Bool.false_eq_true, if_false, Option.some.injEq, construct] at hr0
      rw [← hr0]
      show (spec_model.broadcast_dimensions [] (e.map Operand.dimension_mapping)).1 = Dm
      have hall : ∀ d ∈ (e.map Operand.dimension_mapping).reduceOption, d = Dm := by
        intro d hd
        rw [List.reduceOption_mem_iff, List.mem_map] at hd
        obtain ⟨o, ho, hod⟩ := hd
        cases o with
        | xvariable_scalar el sel => simp [Operand.dimension_mapping] at hod
        | xvariable c d' el sel =>
          have := hD _ ho rfl
          rw [hod] at this
          exact Option.some.inj this
      have hne : (e.map Operand.dimension_mapping).reduceOption ≠ [] := by
        obtain ⟨c, d, el, sel, hg⟩ := get_first_non_scalar_of_has e h
        have hmem : Operand.xvariable c d el sel ∈ e := by
          rw [get_first_non_scalar_eq_find] at hg
          exact List.mem_of_find?_eq_some hg
        have hin : d ∈ (e.map Operand.dimension_mapping).reduceOption := by
          rw [List.reduceOption_mem_iff, List.mem_map]
          exact ⟨_, hmem, rfl⟩
        exact List.ne_nil_of_mem hin
      simp only [spec_model.broadcast_dimensions,
        pairwise_merge_identical Dm _ hne hall hn]
  rw [h1, hr1]

theorem shared_dimension_mapping_witness :
    (∃ n', dimension_mapping collaborators join_id.outer A_plus_B = some ([("x", 0)], n')) ∧
    (∃ n', dimension_mapping collaborators join_id.inner P_minus_Q =
      some ([("x", 0), ("y", 1)], n')) :=
  ⟨shared_dimension_mapping plus [A, B] A_plus_B join_id.outer [("x", 0)]
      Reachable.constructed (by decide)
      (by
        intro o ho _
        have ho' : o = A ∨ o = B := by simpa using ho
        rcases ho' with rfl | rfl <;> rfl)
      (by decide),
    shared_dimension_mapping minus [P, Q] P_minus_Q join_id.inner [("x", 0), ("y", 1)]
      Reachable.constructed (by decide)
      (by
        intro o ho _
        have ho' : o = P ∨ o = Q := by simpa using ho
        rcases ho' with rfl | rfl <;> rfl)
      (by decide)⟩

/-- C9: join of coordinates.  On a node whose operands are unchanged since
construction, `coordinates<J>()` returns the `J`-join of the coordinate mappings
of the non-scalar operands, in declared order, computed from the empty mapping;
the inner join of two label sets holds the labels of both, the outer join the
labels of either. -/
theorem coordinates_join (f : List V → R)
    (e : List (Operand coordinate_type dimension_type V S))
    (n : xvariable_function coordinate_type dimension_type V R S) (J : join_id)
    (hr : Reachable collaborators f e n) (h : has_non_scalar e = true) :
    (∃ n', coordinates collaborators J n = some (join_of_operands J e, n')) ∧
    (∀ a b l, l ∈ join_labels join_id.inner a b ↔ l ∈ a ∧ l ∈ b) ∧
    (∀ a b l, l ∈ join_labels join_id.outer a b ↔ l ∈ a ∨ l ∈ b) := by
  refine ⟨?_, fun a b l => by simp [join_labels, List.mem_filter],
    fun a b l => ?_⟩
  swap
  · simp only [join_labels, List.mem_append, List.mem_filter, List.contains_eq_any_beq,
      Bool.not_eq_true', List.any_eq_false, beq_iff_eq]
    constructor
    · rintro (h1 | h1)
      · exact Or.inl h1
      · exact Or.inr h1.1
    · rintro (h1 | h1)
      · exact Or.inl h1
      · by_cases hl : l ∈ a
        · exact Or.inl hl
        · exact Or.inr ⟨h1, fun x hx hxl => hl (by rw [hxl]; exact hx)⟩
  obtain ⟨n', hc, _⟩ := coordinates_reachable collaborators f e n J hr h
  refine ⟨n', ?_⟩
  rw [hc]
  have : (collaborators.broadcast_coordinates J collaborators.coordinate_empty
      (e.map Operand.coordinates)).1 = join_of_operands J e := by
    show ((e.map Operand.coordinates).reduceOption.foldl (join_coordinate J) []) = _
    rw [reduceOption_coordinates]
    rfl
  rw [this]

theorem coordinates_join_witness :
    (∃ n', coordinates collaborators join_id.outer A_plus_B =
      some ([("x", ["a", "b", "c"])], n')) ∧
    (∃ n', coordinates collaborators join_id.inner A_plus_B =
      some ([("x", ["a", "b"])], n')) ∧
    join_labels join_id.outer ["a", "b"] ["a", "b", "c"] = ["a", "b", "c"] ∧
    join_labels join_id.inner ["a", "b"] ["a", "b", "c"] = ["a", "b"] :=
  ⟨(coordinates_join plus [A, B] A_plus_B join_id.outer Reachable.constructed
      (by decide)).1,
    (coordinates_join plus [A, B] A_plus_B join_id.inner Reachable.constructed
      (by decide)).1,
    by decide, by decide⟩

end modelled_properties

end xf

namespace xf

namespace axis_view_model

/-! ## The axis view -/

theorem xstepped_range_contains_iff (s : xstepped_range) (p : Nat) (hstep : 0 < s.m_step) :
    s.contains p = true ↔ ∃ j, j < s.m_size ∧ p = s.call j := by
  unfold xstepped_range.contains xstepped_range.call
  simp only [Bool.and_eq_true, decide_eq_true_eq, beq_iff_eq]
  constructor
  · rintro ⟨⟨h1, h2⟩, h3⟩
    obtain ⟨j, hj⟩ := Nat.dvd_of_mod_eq_zero h3
    have hj' : p - s.m_start = j * s.m_step := by rw [hj, Nat.mul_comm]
    refine ⟨j, ?_, by omega⟩
    have hlt : j * s.m_step < s.m_size * s.m_step := by omega
    exact Nat.lt_of_mul_lt_mul_right hlt
  · rintro ⟨j, hj, rfl⟩
    have hlt : j * s.m_step < s.m_size * s.m_step := Nat.mul_lt_mul_of_pos_right hj hstep
    refine ⟨⟨by omega, by omega⟩, ?_⟩
    have : s.m_start + j * s.m_step - s.m_start = j * s.m_step := by omega
    rw [this]
    exact Nat.mul_mod_left j s.m_step

theorem position_getElem (a : List String) (k : String) (p : Nat)
    (h : position a k = some p) : a[p]? = some k := by
  induction a generalizing p with
  | nil => simp [position] at h
  | cons l ls ih =>
    by_cases hl : l = k
    · simp only [position, hl, beq_self_eq_true, if_true, Option.some.injEq] at h
      subst h
      simp [hl]
    · have hl' : (l == k) = false := by simpa using hl
      simp only [position, hl', Bool.false_eq_true, if_false, Option.map_eq_some'] at h
      obtain ⟨q, hq, rfl⟩ := h
      simpa using ih q hq

/-- C10: axis-view label lookup.  For the view `v` of axis `a` through slice `s`:
`v[k]` returns `p` exactly when `p` is the position of `k` in `a` (so `a` holds
`k` at `p`) and `s` selects `p`; `v.contains(k)` holds exactly when `v[k]`
returns; for every other label, also one that `a` holds at a position `s` does
not select, `v[k]` throws and `v.contains(k)` is false. -/
theorem axis_view_lookup (a : List String) (s : xstepped_range) (k : String)
    (hstep : 0 < s.m_step) :
    (∀ p, (xaxis_view.mk a s).lookup k = some p ↔
      (position a k = some p ∧ a[p]? = some k ∧ ∃ j, j < s.m_size ∧ p = s.call j)) ∧
    ((xaxis_view.mk a s).contains k = true ↔ ∃ p, (xaxis_view.mk a s).lookup k = some p) ∧
    ((xaxis_view.mk a s).contains k = false ↔ (xaxis_view.mk a s).lookup k = none) := by
  refine ⟨?_, ?_, ?_⟩
  · intro p
    unfold xaxis_view.lookup
    cases hp : position a k with
    | none => simp
    | some q =>
      by_cases hc : s.contains q = true
      · have hsel := (xstepped_range_contains_iff s q hstep).mp hc
        simp only [hc, if_true, Option.some.injEq]
        constructor
        · rintro rfl
          exact ⟨rfl, position_getElem a k q hp, hsel⟩
        · rintro ⟨h1, _⟩
          exact h1
      · have hc' : s.contains q = false := by simpa using hc
        simp only [hc', Bool.false_eq_true, if_false, Option.some.injEq, false_iff,
          not_and, reduceCtorEq]
        rintro rfl _ hsel
        exact hc ((xstepped_range_contains_iff s q hstep).mpr hsel)
  · unfold xaxis_view.contains xaxis_view.lookup
    cases hp : position a k with
    | none => simp
    | some q => cases hc : s.contains q <;> simp
  · unfold xaxis_view.contains xaxis_view.lookup
    cases hp : position a k with
    | none => simp
    | some q => cases hc : s.contains q <;> simp

theorem axis_view_lookup_witness :
    make_slice = { m_start := 1, m_size := 3, m_step := 2 } ∧
    (xaxis_view.mk test_axis make_slice).lookup "c" = some 1 ∧
    (xaxis_view.mk test_axis make_slice).lookup "f" = some 3 ∧
    (xaxis_view.mk test_axis make_slice).lookup "h" = some 5 ∧
    (xaxis_view.mk test_axis make_slice).lookup "m" = none ∧
    (xaxis_view.mk test_axis make_slice).contains "c" = true ∧
    (xaxis_view.mk test_axis make_slice).contains "d" = false ∧
    (xaxis_view.mk test_axis make_slice).size = 3 :=
  ⟨by decide,
    ((axis_view_lookup test_axis make_slice "c" (by decide)).1 1).mpr
      ⟨by decide, by decide, 0, by decide, by decide⟩,
    ((axis_view_lookup test_axis make_slice "f" (by decide)).1 3).mpr
      ⟨by decide, by decide, 1, by decide, by decide⟩,
    ((axis_view_lookup test_axis make_slice "h" (by decide)).1 5).mpr
      ⟨by decide, by decide, 2, by decide, by decide⟩,
    (axis_view_lookup test_axis make_slice "m" (by decide)).2.2.mp (by decide),
    (axis_view_lookup test_axis make_slice "c" (by decide)).2.1.mpr ⟨1, by decide⟩,
    by decide, by decide⟩

end axis_view_model

end xf
